import Mathlib

/-!
A verification development for the shell-multiplexer core of `butterfish.go`.

Modelling conventions:
* Go strings and byte slices are modelled as `List Char` (the code iterates
  over strings rune-wise; all inputs exercised here are single-byte runes,
  for which byte-wise and rune-wise views coincide).
* Go `int` is modelled as `Int`.
* Stateful methods become pure functions returning the updated state together
  with an ordered trace of observable events (writes to the child PTY, writes
  to the parent terminal, LLM calls, autosuggest-request spawns).
* The LLM client is a parameter (an oracle function), matching the `LLM`
  interface of the source.
-/

set_option maxRecDepth 8192

/-- Model of Go `unicode.IsUpper` restricted to the ASCII range (all inputs
considered in the claims are ASCII bytes; on `'A'`–`'Z'` and on every other
ASCII character this agrees with the Go function). -/
def goIsUpper (c : Char) : Bool := 'A' ≤ c && c ≤ 'Z'

/-- Model of Go `strings.HasPrefix s p` / `bytes.HasPrefix s p`: does `p`
occur as a leading piece of `s`? -/
def startsWithL : List Char → List Char → Bool
  | _, [] => true
  | [], _ :: _ => false
  | c :: cs, p :: ps => c == p && startsWithL cs ps

/-! ### The ANSI-stripping regular expression

`butterfish.go` defines
`ansiPattern = "[\u001B\u009B][[\\]()#;?]*(?:(?:(?:[a-zA-Z\\d]*(?:;[a-zA-Z\\d]*)*)?\u0007)|(?:(?:\\d{1,4}(?:;\\d{0,4})*)?[\\dA-PRZcf-ntqry=><~]))"`
and `stripANSI` replaces every match by the empty string
(`regexp.ReplaceAllString`, leftmost-first Perl-style semantics).
We embed the pattern as a backtracking matcher: each sub-pattern maps a
character list to the list of possible remainders in backtracking-preference
order (greedy quantifiers produce longest-first), and the overall match takes
the first success. -/

/-- The character class `[\u001B\u009B]` that introduces an ANSI sequence. -/
def isAnsiIntro (c : Char) : Bool := c == '\x1b' || c == '\u009B'

/-- The character class `[[\]()#;?]`. -/
def isAnsiPunct (c : Char) : Bool :=
  c == '[' || c == ']' || c == '(' || c == ')' || c == '#' || c == ';' || c == '?'

/-- The character class `[a-zA-Z\d]`. -/
def isAlnumGo (c : Char) : Bool := c.isAlpha || c.isDigit

/-- The final-byte character class `[\dA-PRZcf-ntqry=><~]`. -/
def isCsiFinal (c : Char) : Bool :=
  c.isDigit || ('A' ≤ c && c ≤ 'P') || c == 'R' || c == 'Z' || c == 'c' ||
  ('f' ≤ c && c ≤ 'n') || c == 't' || c == 'q' || c == 'r' || c == 'y' ||
  c == '=' || c == '>' || c == '<' || c == '~'

/-- Remainders after a greedy `[class]*`, longest consumption first. -/
def greedyStar (p : Char → Bool) : List Char → List (List Char)
  | [] => [[]]
  | c :: cs => if p c then greedyStar p cs ++ [c :: cs] else [c :: cs]

/-- Consume exactly `n` decimal digits, if present. -/
def exactDigits : Nat → List Char → Option (List Char)
  | 0, cs => some cs
  | _ + 1, [] => none
  | n + 1, c :: cs => if c.isDigit then exactDigits n cs else none

/-- Remainders after `\d{lo,hi}`, longest consumption first. -/
def digitRange (lo hi : Nat) (cs : List Char) : List (List Char) :=
  (List.range (hi + 1 - lo)).filterMap (fun i => exactDigits (hi - i) cs)

/-- Remainders after `(?:;\d{0,4})*` (greedy, fuelled by the list length:
every iteration consumes the leading `;`). -/
def semiDigitsStar : Nat → List Char → List (List Char)
  | 0, cs => [cs]
  | f + 1, cs =>
    match cs with
    | ';' :: rest => ((digitRange 0 4 rest).flatMap (fun r => semiDigitsStar f r)) ++ [cs]
    | _ => [cs]

/-- Remainders after `(?:;[a-zA-Z\d]*)*` (greedy, fuelled). -/
def semiAlnumStar : Nat → List Char → List (List Char)
  | 0, cs => [cs]
  | f + 1, cs =>
    match cs with
    | ';' :: rest => ((greedyStar isAlnumGo rest).flatMap (fun r => semiAlnumStar f r)) ++ [cs]
    | _ => [cs]

/-- Remainders after the first alternation branch
`(?:[a-zA-Z\d]*(?:;[a-zA-Z\d]*)*)?\x07`. -/
def belBranch (cs : List Char) : List (List Char) :=
  (((greedyStar isAlnumGo cs).flatMap (fun r => semiAlnumStar r.length r)) ++ [cs]).filterMap
    (fun r =>
      match r with
      | c :: rest => if c == '\x07' then some rest else none
      | [] => none)

/-- Remainders after the second alternation branch
`(?:\d{1,4}(?:;\d{0,4})*)?[\dA-PRZcf-ntqry=><~]`. -/
def csiBranch (cs : List Char) : List (List Char) :=
  (((digitRange 1 4 cs).flatMap (fun r => semiDigitsStar r.length r)) ++ [cs]).filterMap
    (fun r =>
      match r with
      | c :: rest => if isCsiFinal c then some rest else none
      | [] => none)

/-- Match the body of `ansiPattern` (everything after the intro character)
against a leading piece of `cs`; return the remainder of the first
(backtracking-preferred) successful match. -/
def matchAfterIntro (cs : List Char) : Option (List Char) :=
  ((greedyStar isAnsiPunct cs).flatMap (fun r => belBranch r ++ csiBranch r)).head?

/-- Leftmost scan of `regexp.ReplaceAllString(str, "")`: at an intro character
try to match the pattern body and drop the match, otherwise keep the character.
Fuelled by the list length; every step consumes at least one character, so the
fuel `cs.length` in `stripANSIChars` never runs out. -/
def stripFuel : Nat → List Char → List Char
  | 0, cs => cs
  | _ + 1, [] => []
  | f + 1, c :: cs =>
    if isAnsiIntro c then
      match matchAfterIntro cs with
      | some rest => stripFuel f rest
      | none => c :: stripFuel f cs
    else c :: stripFuel f cs

/-- Model of `stripANSI` (butterfish.go:186). -/
def stripANSIChars (cs : List Char) : List Char := stripFuel cs.length cs

/-! ### ShellBuffer (butterfish.go:435-507) -/

/-- `ShellBuffer`: a tty line buffer with a cursor (butterfish.go:435-439).
`cursor` is a Go `int`, modelled as `Int`. -/
structure ShellBuffer where
  buffer : List Char
  cursor : Int
deriving Repr, DecidableEq

/-- `NewShellBuffer` (butterfish.go:502-507). -/
def NewShellBuffer : ShellBuffer := { buffer := [], cursor := 0 }

/-- `ShellBuffer.WriteRune` (butterfish.go:441-449): insert `r` at the cursor
(append when the cursor sits at the end) and advance the cursor. -/
def ShellBuffer.WriteRune (b : ShellBuffer) (r : Char) : ShellBuffer :=
  if b.cursor = (b.buffer.length : Int) then
    { buffer := b.buffer ++ [r], cursor := b.cursor + 1 }
  else
    { buffer := b.buffer.take b.cursor.toNat ++ r :: b.buffer.drop b.cursor.toNat,
      cursor := b.cursor + 1 }

/-- The body of the `for _, r := range data` loop of `ShellBuffer.Write`
(butterfish.go:480-495): newline and carriage return are written like any
rune, `0x08`/`0x7f` delete the rune before the cursor when possible, and
every other rune is written via `WriteRune`. -/
def writeStep (b : ShellBuffer) (r : Char) : ShellBuffer :=
  if r = '\x0a' ∨ r = '\x0d' then b.WriteRune r
  else if r = '\x08' ∨ r = '\x7f' then
    if 0 < b.cursor ∧ 0 < b.buffer.length then
      { buffer := b.buffer.take (b.cursor - 1).toNat ++ b.buffer.drop b.cursor.toNat,
        cursor := b.cursor - 1 }
    else b
  else b.WriteRune r

/-- `ShellBuffer.Write` (butterfish.go:451-496), fuelled for the recursive
arrow-key calls `this.Write(data[3:])`. The data is first passed through
`stripANSI`; then a leading `ESC [ D` / `ESC [ C` moves the cursor (clamped)
and recurses; otherwise the rune loop runs. Each recursive call consumes at
least three characters, so fuel `data.length + 1` never runs out. -/
def writeFuel : Nat → ShellBuffer → List Char → ShellBuffer
  | _, b, [] => b
  | 0, b, _ :: _ => b
  | f + 1, b, c :: cs =>
    let d := stripANSIChars (c :: cs)
    match d with
    | e1 :: e2 :: e3 :: rest =>
      if e1 = '\x1b' ∧ e2 = '[' ∧ e3 = 'D' then
        writeFuel f { buffer := b.buffer,
                      cursor := if 0 < b.cursor then b.cursor - 1 else b.cursor } rest
      else if e1 = '\x1b' ∧ e2 = '[' ∧ e3 = 'C' then
        writeFuel f { buffer := b.buffer,
                      cursor := if b.cursor < (b.buffer.length : Int) then b.cursor + 1
                                else b.cursor } rest
      else d.foldl writeStep b
    | _ => d.foldl writeStep b

/-- `ShellBuffer.Write` (butterfish.go:451-496). -/
def ShellBuffer.Write (b : ShellBuffer) (data : List Char) : ShellBuffer :=
  writeFuel (data.length + 1) b data

/-! ### ShellHistory (butterfish.go:509-615) -/

def historyTypePrompt : Int := 0
def historyTypeShellInput : Int := 1
def historyTypeShellOutput : Int := 2
def historyTypeLLMOutput : Int := 3

/-- `HistoryBuffer` (butterfish.go:516-519). -/
structure HistoryBuffer where
  «Type» : Int
  Content : ShellBuffer
deriving Repr, DecidableEq

/-- `ShellHistory` (butterfish.go:525-527). -/
structure ShellHistory where
  Blocks : List HistoryBuffer
deriving Repr, DecidableEq

/-- `NewShellHistory` (butterfish.go:529-533). -/
def NewShellHistory : ShellHistory := { Blocks := [] }

/-- `ShellHistory.Add` (butterfish.go:535-542): append a fresh block whose
content is a new `ShellBuffer` with `block` written into it. -/
def ShellHistory.Add (h : ShellHistory) (historyType : Int) (block : List Char) : ShellHistory :=
  { Blocks := h.Blocks ++ [{ «Type» := historyType,
                             Content := NewShellBuffer.Write block }] }

/-- `ShellHistory.Append` (butterfish.go:544-550): write into the trailing
block when its type matches, otherwise `Add` a new block. -/
def ShellHistory.Append (h : ShellHistory) (historyType : Int) (data : List Char) : ShellHistory :=
  match h.Blocks.getLast? with
  | some lastB =>
    if lastB.«Type» = historyType then
      { Blocks := h.Blocks.dropLast ++ [{ «Type» := lastB.«Type»,
                                          Content := lastB.Content.Write data }] }
    else h.Add historyType data
  | none => h.Add historyType data

/-- `ShellHistory.NewBlock` (butterfish.go:552-556). -/
def ShellHistory.NewBlock (h : ShellHistory) : ShellHistory :=
  match h.Blocks.getLast? with
  | some lastB => h.Add lastB.«Type» []
  | none => h

/-- `util.HistoryBlock`: the read-back record returned by `GetLastNBytes`. -/
structure HistoryBlock where
  «Type» : Int
  Content : List Char
deriving Repr, DecidableEq

/-- The per-block truncation of `GetLastNBytes` (butterfish.go:566-569):
`truncateLength = 512`. -/
def truncate512 (content : List Char) : List Char :=
  if 512 < content.length then content.take 512 else content

/-- A `HistoryBuffer` as `GetLastNBytes` would return it: type preserved,
content truncated to 512. -/
def truncBlock (b : HistoryBuffer) : HistoryBlock :=
  { «Type» := b.«Type», Content := truncate512 b.Content.buffer }

/-- The descending loop of `GetLastNBytes` (butterfish.go:564-578), acting on
the block list already reversed (so the head is the most recent block): stop
when the budget is exhausted, drop the remainder entirely as soon as one
truncated block exceeds the remaining budget. -/
def getLastNBytesAux : List HistoryBuffer → Int → List HistoryBlock
  | [], _ => []
  | b :: rest, numBytes =>
    if 0 < numBytes then
      let content := truncate512 b.Content.buffer
      if (content.length : Int) > numBytes then []
      else { «Type» := b.«Type», Content := content } ::
             getLastNBytesAux rest (numBytes - content.length)
    else []

/-- `ShellHistory.GetLastNBytes` (butterfish.go:560-587). -/
def ShellHistory.GetLastNBytes (h : ShellHistory) (numBytes : Int) : List HistoryBlock :=
  (getLastNBytesAux h.Blocks.reverse numBytes).reverse

/-! ### Shell state machine (butterfish.go:617-877) -/

def stateNormal : Int := 0
def stateShell : Int := 1
def statePrompting : Int := 2

/-- `AutosuggestResult` (butterfish.go:623-626). -/
structure AutosuggestResult where
  Command : List Char
  Suggestion : List Char
deriving Repr, DecidableEq

/-- `util.CompletionRequest` as used by the core. The `Ctx` handle and the
float `Temperature` field are omitted (neither is observable here). -/
structure CompletionRequest where
  Prompt : List Char
  Model : List Char
  MaxTokens : Int
  HistoryBlocks : List HistoryBlock
deriving Repr, DecidableEq

def BestCompletionModel : List Char := "gpt-3.5-turbo".data
def BestAutosuggestModel : List Char := "text-davinci-003".data

/-- Which lipgloss style a terminal write was rendered with. `promptStyle` is
the `ShellState.PromptStyle` field, `question` is `Styles.Question`, `grey` is
`ShellState.AutosuggestStyle`; `plain` marks an unstyled write. -/
inductive StyleTag
  | promptStyle
  | question
  | grey
  | plain
deriving Repr, DecidableEq

/-- Observable events of the multiplexer, in program order: a write to the
child PTY (`ChildIn`), a styled write to the user terminal (`ParentOut`), a
blocking `LLMClient.CompletionStream` call (the event marks the call
returning, i.e. the output fully delivered to the answer writer), and the
spawn of a cancellable background autosuggest task. -/
inductive Ev
  | childWrite (data : List Char)
  | parentWrite (style : StyleTag) (data : List Char)
  | llmStream (request : CompletionRequest) (output : List Char)
  | autosuggestRequest (noDelay : Bool)
deriving Repr, DecidableEq

/-- `cursorLeft` (butterfish.go:931): the byte sequence `ESC [ D`. -/
def cursorLeft : List Char := ['\x1b', '[', 'D']

/-- The fields of `ShellState` (butterfish.go:628-648) that the multiplexer
logic reads or writes; channel handles, writers and cancellation handles are
represented by the event trace instead. -/
structure ShellState where
  State : Int
  Prompt : List Char
  Command : ShellBuffer
  LastAutosuggest : List Char
  History : ShellHistory
deriving Repr, DecidableEq

/-- `ShellState.ClearAutosuggest` (butterfish.go:841-856): erase the rendered
grey text by writing one space per suggestion character and then as many
`cursorLeft`s, and forget the stored suggestion. No-op when nothing is stored. -/
def ShellState.ClearAutosuggest (st : ShellState) : ShellState × List Ev :=
  if st.LastAutosuggest = [] then (st, [])
  else
    ({ st with LastAutosuggest := [] },
     List.replicate st.LastAutosuggest.length (Ev.parentWrite StyleTag.plain [' ']) ++
       List.replicate st.LastAutosuggest.length (Ev.parentWrite StyleTag.plain cursorLeft))

/-- `ShellState.RefreshAutosuggest` (butterfish.go:824-838): if the new data
is a leading piece of the stored suggestion, trim it off and do nothing else;
otherwise clear the suggestion and, when in `stateShell`, spawn a new
(delayed) autosuggest request. -/
def ShellState.RefreshAutosuggest (st : ShellState) (newData : List Char) : ShellState × List Ev :=
  if startsWithL st.LastAutosuggest newData then
    ({ st with LastAutosuggest := st.LastAutosuggest.drop newData.length }, [])
  else
    let c := st.ClearAutosuggest
    if c.1.State = stateShell then (c.1, c.2 ++ [Ev.autosuggestRequest false])
    else (c.1, c.2)

/-- The `result := <-this.AutosuggestChan` case of `ShellState.Mux`
(butterfish.go:661-694): drop stale/empty results, results containing a
newline, and results equal to the stored suggestion; then store the full
suggestion, drop it if the command is non-empty and not a leading piece of
the suggestion; otherwise render the tail beyond the current command and
store that tail. -/
def ShellState.OnAutosuggestResult (st : ShellState) (result : AutosuggestResult) :
    ShellState × List Ev :=
  if result.Command ≠ st.Command.buffer ∨ result.Suggestion = [] then (st, [])
  else if result.Suggestion.contains '\n' then (st, [])
  else if result.Suggestion = st.LastAutosuggest then (st, [])
  else
    let st1 := { st with LastAutosuggest := result.Suggestion }
    if result.Command ≠ [] ∧ startsWithL result.Suggestion result.Command = false then (st1, [])
    else
      let cmdLen := st.Command.buffer.length
      let suggToAdd := result.Suggestion.drop cmdLen
      ({ st1 with LastAutosuggest := suggToAdd },
       Ev.parentWrite StyleTag.grey suggToAdd ::
         List.replicate (result.Suggestion.length - cmdLen) (Ev.parentWrite StyleTag.plain cursorLeft))

/-- `ShellState.InputFromParent` (butterfish.go:721-821). The LLM client's
`CompletionStream` is the oracle `llm` (a blocking call whose full output is
delivered to the answer writer before it returns; the `Ev.llmStream` event
marks that return). An empty chunk is returned unchanged (the reader tasks
never deliver empty chunks; the Go code would panic on `data[0]`), and an
unknown state is likewise left untouched (Go panics). -/
def ShellState.InputFromParent (st : ShellState) (data : List Char)
    (llm : CompletionRequest → List Char) : ShellState × List Ev :=
  let hasCR := data.contains '\r'
  if st.State = stateNormal then
    match data with
    | [] => (st, [])
    | d0 :: _ =>
      if goIsUpper d0 then
        ({ st with State := statePrompting, Prompt := data },
         [Ev.parentWrite StyleTag.promptStyle data])
      else if hasCR then
        (st, [Ev.childWrite data])
      else if d0 = '\t' then
        if st.LastAutosuggest ≠ [] then (st, [Ev.childWrite st.LastAutosuggest])
        else (st, [Ev.childWrite data])
      else
        ({ st with State := stateShell, History := st.History.NewBlock,
                   Command := NewShellBuffer.Write data },
         [Ev.childWrite data])
  else if st.State = statePrompting then
    let toAdd := if hasCR then data.takeWhile (fun c => c != '\r') else data
    let prompt1 := st.Prompt ++ toAdd
    if hasCR then
      let request : CompletionRequest :=
        { Prompt := prompt1, Model := BestCompletionModel, MaxTokens := 512,
          HistoryBlocks := st.History.GetLastNBytes 3000 }
      let output := llm request
      ({ st with State := stateNormal, Prompt := [],
                 History := (st.History.Add historyTypePrompt prompt1).Add
                              historyTypeLLMOutput output },
       [Ev.parentWrite StyleTag.question toAdd,
        Ev.parentWrite StyleTag.plain ['\n', '\r'],
        Ev.llmStream request output,
        Ev.childWrite ['\n'],
        Ev.autosuggestRequest true])
    else
      ({ st with Prompt := prompt1 }, [Ev.parentWrite StyleTag.question toAdd])
  else if st.State = stateShell then
    match data with
    | [] => (st, [])
    | d0 :: _ =>
      if hasCR then
        let c := st.ClearAutosuggest
        ({ c.1 with State := stateNormal, Command := NewShellBuffer,
                    History := c.1.History.NewBlock },
         c.2 ++ [Ev.childWrite data])
      else if d0 = '\t' then
        if st.LastAutosuggest ≠ [] then (st, [Ev.childWrite st.LastAutosuggest])
        else (st, [Ev.childWrite data])
      else
        let st1 := { st with Command := st.Command.Write data }
        let r := st1.RefreshAutosuggest data
        (r.1, Ev.childWrite data :: r.2)
  else (st, [])

/-! ### The background autosuggest task (butterfish.go:879-929) -/

/-- The prompt built when the current command is empty (butterfish.go:896-899). -/
def autosuggestPromptEmpty (historyText : List Char) : List Char :=
  ("The user is using a Unix shell but hasn\x27t yet entered anything. Suggest a unix command based on previous assistant output like an example. If the user has entered a command recently which failed, suggest a fixed version of that command. Respond with only the shell command, do not add comments or quotations. Here is the recent history:\n\x27\x27\x27\n").data
    ++ historyText ++ ("\n\x27\x27\x27").data

/-- The prompt built when the current command is non-empty
(butterfish.go:901-905). -/
def autosuggestPromptNonEmpty (historyText currCommand : List Char) : List Char :=
  ("The user is asking for an autocomplete suggestion for this Unix shell command, respond with only the suggested command, which should include the original command text, do not add comments or quotations. Here is some recent context and history:\n\x27\x27\x27\n").data
    ++ historyText
    ++ ("\n\x27\x27\x27.\nIf a command has resulted in an error, avoid that. This is the start of the command: \x27").data
    ++ currCommand ++ ("\x27.").data

/-- The completion request built by `RequestCancelableAutosuggest`
(butterfish.go:908-915); note that `HistoryBlocks` is commented out in the
source, so it is empty. -/
def autosuggestRequestFor (currCommand historyText : List Char) : CompletionRequest :=
  { Prompt := if currCommand.length = 0 then autosuggestPromptEmpty historyText
              else autosuggestPromptNonEmpty historyText currCommand,
    Model := BestAutosuggestModel,
    MaxTokens := 256,
    HistoryBlocks := [] }

/-- `RequestCancelableAutosuggest` (butterfish.go:879-929). `ctxCanceled`
models `ctx.Err() != nil` after the debounce sleep; `completion` is the
oracle for the non-streaming `LLMClient.Completion` call, returning either an
error or the output string. The returned `Option` is what the task sends on
the autosuggest channel: `none` means nothing is sent at all (the task writes
nothing anywhere else). -/
def RequestCancelableAutosuggest (ctxCanceled : Bool) (currCommand historyText : List Char)
    (completion : CompletionRequest → Except (List Char) (List Char)) :
    Option AutosuggestResult :=
  if ctxCanceled then none
  else
    match completion (autosuggestRequestFor currCommand historyText) with
    | Except.error _ => none
    | Except.ok output => some { Command := currCommand, Suggestion := output }

/-! ### Definitions taken from the specification's words (for comparison) -/

/-- Modelled from the spec: "has the current buffer as a case-insensitive
prefix" — `p` is a case-insensitive leading piece of `s`. Used only to state
what claim C6 asserts; the source uses the case-sensitive `strings.HasPrefix`. -/
def ciStartsWithSpec (s p : List Char) : Bool :=
  startsWithL (s.map Char.toLower) (p.map Char.toLower)

/-- A character that the `ShellBuffer.Write` rune loop simply inserts and that
cannot start or belong to an ANSI escape: not a backspace (`0x08`/`0x7f`) and
not an ANSI intro character. -/
def plainChar (c : Char) : Bool :=
  !(c == '\x08' || c == '\x7f' || isAnsiIntro c)

/-- An edit operation on a `ShellBuffer`: either `WriteRune` or `Write`. -/
inductive BufOp
  | rune (r : Char)
  | write (data : List Char)

/-- Apply one `BufOp`. -/
def applyBufOp (b : ShellBuffer) : BufOp → ShellBuffer
  | BufOp.rune r => b.WriteRune r
  | BufOp.write data => b.Write data

/-- Apply a sequence of `BufOp`s starting from the empty buffer. -/
def applyBufOps (ops : List BufOp) : ShellBuffer :=
  ops.foldl applyBufOp NewShellBuffer

/-- The line-buffer invariant of claim C3: `0 ≤ cursor ≤ |buffer|`. -/
def bufInv (b : ShellBuffer) : Prop :=
  0 ≤ b.cursor ∧ b.cursor ≤ (b.buffer.length : Int)

/-! ## Helper lemmas -/

theorem stripFuel_noIntro : ∀ (cs : List Char) (f : Nat),
    (∀ c ∈ cs, isAnsiIntro c = false) → stripFuel f cs = cs := by
  intro cs
  induction cs with
  | nil => intro f _; cases f <;> rfl
  | cons c cs ih =>
    intro f h
    cases f with
    | zero => rfl
    | succ f =>
      have hc : isAnsiIntro c = false := h c (by simp)
      simp only [stripFuel, hc, Bool.false_eq_true, if_false]
      rw [ih f (fun x hx => h x (by simp [hx]))]

theorem stripANSIChars_noIntro (cs : List Char) (h : ∀ c ∈ cs, isAnsiIntro c = false) :
    stripANSIChars cs = cs := stripFuel_noIntro cs cs.length h

theorem write_escFree (b : ShellBuffer) (cs : List Char)
    (h : ∀ c ∈ cs, isAnsiIntro c = false) :
    ShellBuffer.Write b cs = cs.foldl writeStep b := by
  cases cs with
  | nil => rfl
  | cons c cs' =>
    have hd : stripANSIChars (c :: cs') = c :: cs' := stripANSIChars_noIntro _ h
    have hc : ¬ c = '\x1b' := by
      intro hc
      have := h c (by simp)
      rw [hc] at this
      simp [isAnsiIntro] at this
    show writeFuel ((c :: cs').length + 1) b (c :: cs') = _
    simp only [List.length_cons]
    cases cs' with
    | nil => simp only [writeFuel, hd]
    | cons c2 cs'' =>
      cases cs'' with
      | nil => simp only [writeFuel, hd]
      | cons c3 cs''' =>
        simp only [writeFuel, hd]
        rw [if_neg (by simp [hc]), if_neg (by simp [hc])]

theorem bufInv_WriteRune {b : ShellBuffer} (hb : bufInv b) (r : Char) :
    bufInv (b.WriteRune r) := by
  obtain ⟨h0, h1⟩ := hb
  unfold ShellBuffer.WriteRune bufInv
  split <;> simp [List.length_append, List.length_take, List.length_drop] <;> omega

theorem bufInv_writeStep {b : ShellBuffer} (hb : bufInv b) (r : Char) :
    bufInv (writeStep b r) := by
  obtain ⟨h0, h1⟩ := hb
  unfold writeStep
  split
  · exact bufInv_WriteRune ⟨h0, h1⟩ r
  · split
    · split
      · unfold bufInv
        simp [List.length_append, List.length_take, List.length_drop]
        omega
      · exact ⟨h0, h1⟩
    · exact bufInv_WriteRune ⟨h0, h1⟩ r

theorem bufInv_foldl : ∀ (cs : List Char) (b : ShellBuffer),
    bufInv b → bufInv (cs.foldl writeStep b)
  | [], _, hb => hb
  | c :: cs, b, hb => bufInv_foldl cs _ (bufInv_writeStep hb c)

theorem bufInv_writeFuel : ∀ (f : Nat) (cs : List Char) (b : ShellBuffer),
    bufInv b → bufInv (writeFuel f b cs) := by
  intro f
  induction f with
  | zero =>
    intro cs b hb
    cases cs <;> simpa [writeFuel]
  | succ f ih =>
    intro cs b hb
    cases cs with
    | nil => simpa [writeFuel]
    | cons c cs' =>
      simp only [writeFuel]
      split
      · obtain ⟨h0, h1⟩ := hb
        split_ifs
        all_goals first
          | (refine ih _ _ ⟨?_, ?_⟩ <;> simp <;> omega)
          | exact bufInv_foldl _ _ ⟨h0, h1⟩
      · exact bufInv_foldl _ _ hb

theorem bufInv_Write {b : ShellBuffer} (hb : bufInv b) (data : List Char) :
    bufInv (b.Write data) := bufInv_writeFuel _ _ _ hb

theorem bufInv_applyBufOp {b : ShellBuffer} (hb : bufInv b) (op : BufOp) :
    bufInv (applyBufOp b op) := by
  cases op with
  | rune r => exact bufInv_WriteRune hb r
  | write data => exact bufInv_Write hb data

theorem bufInv_foldl_ops : ∀ (ops : List BufOp) (b : ShellBuffer),
    bufInv b → bufInv (ops.foldl applyBufOp b)
  | [], _, hb => hb
  | op :: ops, b, hb => bufInv_foldl_ops ops _ (bufInv_applyBufOp hb op)

theorem plainChar_spec {c : Char} (hc : plainChar c = true) :
    ¬ c = '\x08' ∧ ¬ c = '\x7f' ∧ isAnsiIntro c = false := by
  simp [plainChar] at hc
  exact ⟨hc.1.1, hc.1.2, hc.2⟩

theorem writeStep_plain {c : Char} (hc : plainChar c = true) (l : List Char) :
    writeStep { buffer := l, cursor := (l.length : Int) } c =
      { buffer := l ++ [c], cursor := (l.length : Int) + 1 } := by
  obtain ⟨h8, h7, _⟩ := plainChar_spec hc
  by_cases hn : c = '\x0a' ∨ c = '\x0d'
  · simp [writeStep, hn, ShellBuffer.WriteRune]
  · have hb : ¬ (c = '\x08' ∨ c = '\x7f') := by
      rintro (h | h) <;> [exact h8 h; exact h7 h]
    simp [writeStep, hn, hb, ShellBuffer.WriteRune]

theorem foldl_writeStep_plain : ∀ (cs l : List Char),
    (∀ c ∈ cs, plainChar c = true) →
    cs.foldl writeStep { buffer := l, cursor := (l.length : Int) } =
      { buffer := l ++ cs, cursor := ((l ++ cs).length : Int) } := by
  intro cs
  induction cs with
  | nil => intro l _; simp
  | cons c cs ih =>
    intro l h
    rw [List.foldl_cons, writeStep_plain (h c (by simp)) l]
    have hlen : (l.length : Int) + 1 = ((l ++ [c]).length : Int) := by simp
    rw [hlen, ih (l ++ [c]) (fun x hx => h x (by simp [hx]))]
    simp

theorem write_plain (l cs : List Char) (h : ∀ c ∈ cs, plainChar c = true) :
    ShellBuffer.Write { buffer := l, cursor := (l.length : Int) } cs =
      { buffer := l ++ cs, cursor := ((l ++ cs).length : Int) } := by
  rw [write_escFree _ _ (fun c hc => (plainChar_spec (h c hc)).2.2),
    foldl_writeStep_plain cs l h]

theorem write_plain_empty (cs : List Char) (h : ∀ c ∈ cs, plainChar c = true) :
    ShellBuffer.Write NewShellBuffer cs =
      { buffer := cs, cursor := (cs.length : Int) } := by
  have := write_plain [] cs h
  simpa [NewShellBuffer] using this

/-! ## Claim C2 -/

/-- C2 (counterexample): the claim says a CSI `D` sequence decrements the
cursor (here: from 2 to 1) and that unlisted control characters are not
inserted into the buffer. In the code `stripANSI` removes the CSI sequence
before the arrow check, leaving the cursor at 2, and the rune loop inserts
the unlisted control character `0x01` into the buffer. -/
theorem c2_counterexample :
    (ShellBuffer.Write (ShellBuffer.Write NewShellBuffer "ab".data) ['\x1b', '[', 'D']).cursor = 2 ∧
    ¬ (ShellBuffer.Write (ShellBuffer.Write NewShellBuffer "ab".data) ['\x1b', '[', 'D']).cursor = 1 ∧
    (ShellBuffer.Write NewShellBuffer ['\x01']).buffer = ['\x01'] :=
  ⟨by decide, by decide, by decide⟩

/-- C2 (amended): `0x08`/`0x7F` delete the rune at `cursor − 1` and decrement
the cursor (a no-op when the cursor is 0 or the buffer is empty); any other
rune — including control characters not listed, which are NOT ignored — is
inserted at the cursor and the cursor incremented. CSI `C` and CSI `D` do not
move the cursor: every ANSI escape sequence (these included) is stripped
before processing, leaving buffer and cursor unchanged. Formally: on data
free of ANSI-intro characters `Write` is exactly the fold of the per-rune
loop body `writeStep`, and `Write` of a CSI `C` or CSI `D` sequence is the
identity. -/
theorem c2_amended :
    (∀ (b : ShellBuffer) (data : List Char), (∀ c ∈ data, isAnsiIntro c = false) →
      b.Write data = data.foldl writeStep b)
    ∧ (∀ b : ShellBuffer, b.Write ['\x1b', '[', 'C'] = b ∧ b.Write ['\x1b', '[', 'D'] = b) := by
  constructor
  · exact fun b data h => write_escFree b data h
  · intro b
    constructor
    · have h : stripANSIChars ['\x1b', '[', 'C'] = [] := by decide
      show writeFuel 4 b ['\x1b', '[', 'C'] = b
      simp [writeFuel, h]
    · have h : stripANSIChars ['\x1b', '[', 'D'] = [] := by decide
      show writeFuel 4 b ['\x1b', '[', 'D'] = b
      simp [writeFuel, h]

/-- C2 (witness for the amended theorem): a concrete escape-free write. -/
theorem c2_amended_witness :
    ShellBuffer.Write NewShellBuffer "aX\x08!".data = ("aX\x08!".data).foldl writeStep NewShellBuffer :=
  c2_amended.1 NewShellBuffer "aX\x08!".data (by decide)

/-! ## Claim C3 -/

/-- C3: for every sequence of `Write` and `WriteRune` operations applied to
the empty line buffer, the invariant `0 ≤ cursor ≤ |buffer|` holds after each
operation (every intermediate state is `applyBufOps` of a prefix, which is
itself such a sequence). -/
theorem c3_cursor_invariant (ops : List BufOp) : bufInv (applyBufOps ops) :=
  bufInv_foldl_ops ops NewShellBuffer (by constructor <;> simp [NewShellBuffer])

/-! ## Claim C4 -/

/-- C4 (counterexample): the claim says that after `Add(T, a); Append(T, b)`
the trailing block's content is the concatenation `a ∥ b` for every `a`, `b`.
But `Append` writes `b` through `ShellBuffer.Write`, which interprets
`0x7f` as a backspace: with `a = "x"` and `b = "\x7f"` the resulting single
block has content `""`, not `"x\x7f"`. -/
theorem c4_counterexample :
    ((ShellHistory.Append (ShellHistory.Add NewShellHistory historyTypePrompt ['x'])
        historyTypePrompt ['\x7f']).Blocks.map (fun blk => blk.Content.buffer)) = [[]] ∧
    ([] : List Char) ≠ ['x', '\x7f'] :=
  ⟨by decide, by decide⟩

/-- C4 (amended): `Append` writes through the block's `ShellBuffer`, so the
spec's concatenation law holds for strings whose characters are plain (no
backspace bytes `0x08`/`0x7f` and no ANSI-intro characters). For such `a`,
`b`: after `Add(T, a); Append(T, b)` the log gains exactly one block, of type
`T`, with content `a ++ b`; after `Add(T1, a); Append(T2, b)` with `T1 ≠ T2`
it gains two blocks containing `a` and `b`. -/
theorem c4_amended (h : ShellHistory) (t1 t2 : Int) (a b : List Char)
    (ha : ∀ c ∈ a, plainChar c = true) (hb : ∀ c ∈ b, plainChar c = true) :
    (((h.Add t1 a).Append t1 b).Blocks =
       h.Blocks ++ [{ «Type» := t1,
                      Content := { buffer := a ++ b, cursor := ((a ++ b).length : Int) } }])
    ∧ (t1 ≠ t2 →
       ((h.Add t1 a).Append t2 b).Blocks =
         h.Blocks ++ [{ «Type» := t1,
                        Content := { buffer := a, cursor := (a.length : Int) } },
                      { «Type» := t2,
                        Content := { buffer := b, cursor := (b.length : Int) } }]) := by
  have hwa : ShellBuffer.Write NewShellBuffer a = { buffer := a, cursor := (a.length : Int) } :=
    write_plain_empty a ha
  have hwb : ShellBuffer.Write NewShellBuffer b = { buffer := b, cursor := (b.length : Int) } :=
    write_plain_empty b hb
  have hwab : ShellBuffer.Write { buffer := a, cursor := (a.length : Int) } b =
      { buffer := a ++ b, cursor := ((a ++ b).length : Int) } := write_plain a b hb
  constructor
  · show (ShellHistory.Append { Blocks := h.Blocks ++ [_] } t1 b).Blocks = _
    unfold ShellHistory.Append
    simp [List.getLast?_concat, hwa, List.dropLast_concat, hwab]
  · intro hne
    show (ShellHistory.Append { Blocks := h.Blocks ++ [_] } t2 b).Blocks = _
    unfold ShellHistory.Append
    simp only [List.getLast?_concat, hwa]
    rw [if_neg hne]
    unfold ShellHistory.Add
    simp [hwb]

/-- C4 (witness for the amended theorem): concrete plain strings. -/
theorem c4_amended_witness :
    ((((NewShellHistory.Add 0 "ls".data).Append 0 " -la".data).Blocks =
       [{ «Type» := 0, Content := { buffer := "ls -la".data, cursor := 6 } }]))
    ∧ ((0 : Int) ≠ 1 →
       (((NewShellHistory.Add 0 "ls".data).Append 1 " -la".data).Blocks =
         [{ «Type» := 0, Content := { buffer := "ls".data, cursor := 2 } },
          { «Type» := 1, Content := { buffer := " -la".data, cursor := 4 } }])) := by
  have h := c4_amended NewShellHistory 0 1 "ls".data " -la".data (by decide) (by decide)
  constructor
  · have h1 := h.1
    simpa [NewShellHistory] using h1
  · intro hne
    have h2 := h.2 hne
    simpa [NewShellHistory] using h2

/-! ## Claim C5 -/

theorem truncate512_length (c : List Char) : (truncate512 c).length ≤ 512 := by
  unfold truncate512
  split
  · simp
  · omega

theorem getLastNBytesAux_take : ∀ (l : List HistoryBuffer) (n : Int),
    ∃ j, j ≤ l.length ∧ getLastNBytesAux l n = (l.take j).map truncBlock := by
  intro l
  induction l with
  | nil => intro n; exact ⟨0, by simp, rfl⟩
  | cons b rest ih =>
    intro n
    by_cases h0 : 0 < n
    · by_cases h1 : ((truncate512 b.Content.buffer).length : Int) > n
      · refine ⟨0, by simp, ?_⟩
        simp [getLastNBytesAux, h0, h1]
      · obtain ⟨j, hj, heq⟩ := ih (n - (truncate512 b.Content.buffer).length)
        refine ⟨j + 1, by simpa using hj, ?_⟩
        simp only [getLastNBytesAux, if_pos h0, if_neg h1, heq, List.take_succ_cons,
          List.map_cons]
        rfl
    · refine ⟨0, by simp, ?_⟩
      simp [getLastNBytesAux, h0]

theorem getLastNBytesAux_sum : ∀ (l : List HistoryBuffer) (n : Int),
    ((getLastNBytesAux l n).map (fun blk => (blk.Content.length : Int))).sum ≤ max n 0 := by
  intro l
  induction l with
  | nil =>
    intro n
    simp [getLastNBytesAux]
  | cons b rest ih =>
    intro n
    by_cases h0 : 0 < n
    · by_cases h1 : ((truncate512 b.Content.buffer).length : Int) > n
      · simp [getLastNBytesAux, h0, h1]
      · have hrec := ih (n - (truncate512 b.Content.buffer).length)
        simp only [getLastNBytesAux, if_pos h0, if_neg h1, List.map_cons, List.sum_cons]
        have hmax1 : max n 0 = n := max_eq_left (le_of_lt h0)
        have hmax2 : max (n - ((truncate512 b.Content.buffer).length : Int)) 0 =
            n - ((truncate512 b.Content.buffer).length : Int) := by
          apply max_eq_left
          omega
        rw [hmax1]
        rw [hmax2] at hrec
        omega
    · simp [getLastNBytesAux, h0]

theorem getLastNBytesAux_le512 : ∀ (l : List HistoryBuffer) (n : Int),
    ∀ blk ∈ getLastNBytesAux l n, blk.Content.length ≤ 512 := by
  intro l
  induction l with
  | nil => intro n blk hblk; simp [getLastNBytesAux] at hblk
  | cons b rest ih =>
    intro n blk hblk
    by_cases h0 : 0 < n
    · by_cases h1 : ((truncate512 b.Content.buffer).length : Int) > n
      · simp [getLastNBytesAux, h0, h1] at hblk
      · simp only [getLastNBytesAux, if_pos h0, if_neg h1, List.mem_cons] at hblk
        rcases hblk with hblk | hblk
        · rw [hblk]
          exact truncate512_length _
        · exact ih _ blk hblk
    · simp [getLastNBytesAux, h0] at hblk

/-- C5: `GetLastNBytes B` returns a suffix of whole blocks in original order,
each block's content truncated via the 512-byte cap (`truncBlock`), with
total returned content length at most `B`; blocks are only ever included
whole (the suffix-of-truncated-blocks form), never partially. -/
theorem c5_getLastNBytes (h : ShellHistory) (B : Int) (hB : 0 ≤ B) :
    (∃ k, h.GetLastNBytes B = (h.Blocks.drop k).map truncBlock)
    ∧ ((h.GetLastNBytes B).map (fun blk => (blk.Content.length : Int))).sum ≤ B
    ∧ (∀ blk ∈ h.GetLastNBytes B, blk.Content.length ≤ 512) := by
  obtain ⟨j, hj, heq⟩ := getLastNBytesAux_take h.Blocks.reverse B
  refine ⟨⟨h.Blocks.length - j, ?_⟩, ?_, ?_⟩
  · unfold ShellHistory.GetLastNBytes
    rw [heq, ← List.map_reverse]
    congr 1
    rw [List.reverse_take]
    · simp
  · unfold ShellHistory.GetLastNBytes
    rw [← List.sum_reverse, ← List.map_reverse, List.reverse_reverse]
    have := getLastNBytesAux_sum h.Blocks.reverse B
    rwa [max_eq_left hB] at this
  · intro blk hblk
    unfold ShellHistory.GetLastNBytes at hblk
    rw [List.mem_reverse] at hblk
    exact getLastNBytesAux_le512 _ _ blk hblk

/-- C5 (witness): a concrete three-block history with budget 6; the theorem
instance evaluates on it. -/
theorem c5_witness :
    (∃ k, (((NewShellHistory.Add 0 "abc".data).Add 1 "defg".data).Add 2 "hi".data).GetLastNBytes 6 =
      (((((NewShellHistory.Add 0 "abc".data).Add 1 "defg".data).Add 2 "hi".data).Blocks.drop k).map truncBlock))
    ∧ ((((((NewShellHistory.Add 0 "abc".data).Add 1 "defg".data).Add 2 "hi".data).GetLastNBytes 6).map
          (fun blk => (blk.Content.length : Int))).sum ≤ 6)
    ∧ (∀ blk ∈ (((NewShellHistory.Add 0 "abc".data).Add 1 "defg".data).Add 2 "hi".data).GetLastNBytes 6,
        blk.Content.length ≤ 512) :=
  c5_getLastNBytes (((NewShellHistory.Add 0 "abc".data).Add 1 "defg".data).Add 2 "hi".data) 6
    (by decide)

/-! ## Claim C6 -/

/-- C6 (counterexample): with command buffer `"LS"`, no stored suggestion,
and a fresh result `{command := "LS", suggestion := "ls -la"}`, every
condition of the claim holds — the suggestion is non-empty, has no newline,
differs from the last rendered suggestion, is not the buffer, its command
equals the buffer, and the buffer is a case-insensitive prefix of the
suggestion — yet the code discards it (renders nothing, because
`strings.HasPrefix` is case-sensitive) and, contrary to the claim's
"stored suggestion state is not used", overwrites `LastAutosuggest` with the
full suggestion text. -/
theorem c6_counterexample :
    (({ State := stateShell, Prompt := [], Command := { buffer := "LS".data, cursor := 2 },
        LastAutosuggest := [], History := NewShellHistory } : ShellState).OnAutosuggestResult
        { Command := "LS".data, Suggestion := "ls -la".data }).2 = [] ∧
    (({ State := stateShell, Prompt := [], Command := { buffer := "LS".data, cursor := 2 },
        LastAutosuggest := [], History := NewShellHistory } : ShellState).OnAutosuggestResult
        { Command := "LS".data, Suggestion := "ls -la".data }).1.LastAutosuggest = "ls -la".data ∧
    ciStartsWithSpec "ls -la".data "LS".data = true ∧
    "ls -la".data ≠ ([] : List Char) ∧
    ("ls -la".data).contains '\n' = false ∧
    "ls -la".data ≠ "LS".data := by
  refine ⟨by decide, by decide, by decide, by decide, by decide, by decide⟩

/-- C6 (amended): a received autosuggest result is rendered if and only if
its `command` equals the current command buffer, its `suggestion` is
non-empty, contains no newline, differs from the stored suggestion tail, and
the buffer is a CASE-SENSITIVE prefix of the suggestion (or the buffer is
empty); there is no separate check that the suggestion differs from the
buffer. When rendered, the tail `suggestion[|buffer|:]` is written to the
terminal in the autosuggest style and stored. A result that fails only the
prefix test is discarded for rendering but still overwrites the stored
suggestion with the full suggestion text. -/
theorem c6_amended (st : ShellState) (result : AutosuggestResult) :
    ((st.OnAutosuggestResult result).2 ≠ [] ↔
      (result.Command = st.Command.buffer ∧ result.Suggestion ≠ [] ∧
       result.Suggestion.contains '\n' = false ∧ result.Suggestion ≠ st.LastAutosuggest ∧
       (result.Command = [] ∨ startsWithL result.Suggestion result.Command = true)))
    ∧ ((result.Command = st.Command.buffer ∧ result.Suggestion ≠ [] ∧
        result.Suggestion.contains '\n' = false ∧ result.Suggestion ≠ st.LastAutosuggest ∧
        (result.Command = [] ∨ startsWithL result.Suggestion result.Command = true)) →
       st.OnAutosuggestResult result =
         ({ st with LastAutosuggest := result.Suggestion.drop st.Command.buffer.length },
          Ev.parentWrite StyleTag.grey (result.Suggestion.drop st.Command.buffer.length) ::
            List.replicate (result.Suggestion.length - st.Command.buffer.length)
              (Ev.parentWrite StyleTag.plain cursorLeft)))
    ∧ ((result.Command = st.Command.buffer ∧ result.Suggestion ≠ [] ∧
        result.Suggestion.contains '\n' = false ∧ result.Suggestion ≠ st.LastAutosuggest ∧
        result.Command ≠ [] ∧ startsWithL result.Suggestion result.Command = false) →
       st.OnAutosuggestResult result = ({ st with LastAutosuggest := result.Suggestion }, [])) := by
  unfold ShellState.OnAutosuggestResult
  split_ifs with h1 h2 h3 h4
  · refine ⟨?_, ?_, ?_⟩
    · constructor
      · intro hfalse; exact absurd rfl hfalse
      · rintro ⟨hc, hs, _⟩
        rcases h1 with h1 | h1
        · exact absurd hc h1
        · exact absurd h1 hs
    · rintro ⟨hc, hs, _⟩
      rcases h1 with h1 | h1
      · exact absurd hc h1
      · exact absurd h1 hs
    · rintro ⟨hc, hs, _⟩
      rcases h1 with h1 | h1
      · exact absurd hc h1
      · exact absurd h1 hs
  · refine ⟨?_, ?_, ?_⟩
    · constructor
      · intro hfalse; exact absurd rfl hfalse
      · rintro ⟨_, _, hnl, _⟩
        rw [h2] at hnl
        exact absurd hnl (by simp)
    · rintro ⟨_, _, hnl, _⟩
      rw [h2] at hnl
      exact absurd hnl (by simp)
    · rintro ⟨_, _, hnl, _⟩
      rw [h2] at hnl
      exact absurd hnl (by simp)
  · refine ⟨?_, ?_, ?_⟩
    · constructor
      · intro hfalse; exact absurd rfl hfalse
      · rintro ⟨_, _, _, hne, _⟩
        exact absurd h3 hne
    · rintro ⟨_, _, _, hne, _⟩
      exact absurd h3 hne
    · rintro ⟨_, _, _, hne, _⟩
      exact absurd h3 hne
  · refine ⟨?_, ?_, ?_⟩
    · constructor
      · intro hfalse; exact absurd rfl hfalse
      · rintro ⟨_, _, _, _, hpre | hpre⟩
        · exact absurd hpre h4.1
        · rw [hpre] at h4
          exact absurd h4.2 (by simp)
    · rintro ⟨_, _, _, _, hpre | hpre⟩
      · exact absurd hpre h4.1
      · rw [hpre] at h4
        exact absurd h4.2 (by simp)
    · intro _
      rfl
  · push_neg at h1
    have hc : result.Command = st.Command.buffer ∧ result.Suggestion ≠ [] := ⟨h1.1, h1.2⟩
    have hnl : result.Suggestion.contains '\n' = false := by
      cases hcl : result.Suggestion.contains '\n'
      · rfl
      · exact absurd hcl h2
    have hpre : result.Command = [] ∨ startsWithL result.Suggestion result.Command = true := by
      rcases Decidable.em (result.Command = []) with he | he
      · exact Or.inl he
      · right
        cases hsw : startsWithL result.Suggestion result.Command
        · exact absurd ⟨he, hsw⟩ h4
        · rfl
    refine ⟨?_, ?_, ?_⟩
    · constructor
      · intro _
        exact ⟨hc.1, hc.2, hnl, h3, hpre⟩
      · intro _
        simp
    · intro _
      rfl
    · rintro ⟨_, _, _, _, hcmdne, hsw⟩
      exact absurd ⟨hcmdne, hsw⟩ h4

/-- C6 (witness for the amended theorem): a concrete accepted result. -/
theorem c6_amended_witness :
    ({ State := stateShell, Prompt := [], Command := { buffer := "ls".data, cursor := 2 },
       LastAutosuggest := [], History := NewShellHistory } : ShellState).OnAutosuggestResult
        { Command := "ls".data, Suggestion := "ls -la".data } =
      ({ State := stateShell, Prompt := [], Command := { buffer := "ls".data, cursor := 2 },
         LastAutosuggest := ("ls -la".data).drop ("ls".data).length, History := NewShellHistory },
       Ev.parentWrite StyleTag.grey (("ls -la".data).drop ("ls".data).length) ::
         List.replicate (("ls -la".data).length - ("ls".data).length)
           (Ev.parentWrite StyleTag.plain cursorLeft)) :=
  (c6_amended
    { State := stateShell, Prompt := [], Command := { buffer := "ls".data, cursor := 2 },
      LastAutosuggest := [], History := NewShellHistory }
    { Command := "ls".data, Suggestion := "ls -la".data }).2.1
    ⟨by decide, by decide, by decide, by decide, Or.inr (by decide)⟩

/-! ## Claim C7 -/

theorem startsWithL_take (s : List Char) : ∀ (k : Nat), startsWithL s (s.take k) = true := by
  induction s with
  | nil => intro k; cases k <;> rfl
  | cons c cs ih =>
    intro k
    cases k with
    | zero => rfl
    | succ k =>
      simp only [List.take_succ_cons, startsWithL, ih k, Bool.and_true, beq_self_eq_true]

theorem clearAutosuggest_fst (st : ShellState) :
    st.ClearAutosuggest.1 = { st with LastAutosuggest := [] } := by
  unfold ShellState.ClearAutosuggest
  split
  · rename_i hemp
    cases st
    simp_all
  · rfl

/-- C7: typing the first `k` characters of the stored suggestion contracts it
to the remaining suffix (dropping those `k` characters) and issues no new
request (and emits nothing); any input that is not such a leading piece
clears the suggestion and — in `stateShell`, the only state in which
`RefreshAutosuggest` is invoked (butterfish.go:815) — spawns a fresh
autosuggest request. -/
theorem c7_refresh_autosuggest :
    (∀ (st : ShellState) (k : Nat), k ≤ st.LastAutosuggest.length →
      st.RefreshAutosuggest (st.LastAutosuggest.take k) =
        ({ st with LastAutosuggest := st.LastAutosuggest.drop k }, []))
    ∧ (∀ (st : ShellState) (newData : List Char), st.State = stateShell →
      startsWithL st.LastAutosuggest newData = false →
      st.RefreshAutosuggest newData =
        ({ st with LastAutosuggest := [] },
         st.ClearAutosuggest.2 ++ [Ev.autosuggestRequest false])) := by
  constructor
  · intro st k hk
    unfold ShellState.RefreshAutosuggest
    rw [if_pos (startsWithL_take st.LastAutosuggest k)]
    have hlen : (st.LastAutosuggest.take k).length = k := by
      simp [List.length_take]
      omega
    rw [hlen]
  · intro st newData hstate hsw
    unfold ShellState.RefreshAutosuggest
    rw [if_neg (by simp [hsw])]
    simp [clearAutosuggest_fst, hstate]

/-- C7 (witness): a concrete contraction and a concrete miss. -/
theorem c7_witness :
    (({ State := stateShell, Prompt := [], Command := NewShellBuffer,
        LastAutosuggest := "ls -la".data, History := NewShellHistory } : ShellState).RefreshAutosuggest
        (("ls -la".data).take 2) =
      ({ State := stateShell, Prompt := [], Command := NewShellBuffer,
         LastAutosuggest := ("ls -la".data).drop 2, History := NewShellHistory }, []))
    ∧ (({ State := stateShell, Prompt := [], Command := NewShellBuffer,
          LastAutosuggest := "ls -la".data, History := NewShellHistory } : ShellState).RefreshAutosuggest
          "x".data =
        ({ State := stateShell, Prompt := [], Command := NewShellBuffer,
           LastAutosuggest := [], History := NewShellHistory },
         ({ State := stateShell, Prompt := [], Command := NewShellBuffer,
            LastAutosuggest := "ls -la".data, History := NewShellHistory } : ShellState).ClearAutosuggest.2 ++
           [Ev.autosuggestRequest false])) :=
  ⟨c7_refresh_autosuggest.1
      { State := stateShell, Prompt := [], Command := NewShellBuffer,
        LastAutosuggest := "ls -la".data, History := NewShellHistory } 2 (by decide),
   c7_refresh_autosuggest.2
      { State := stateShell, Prompt := [], Command := NewShellBuffer,
        LastAutosuggest := "ls -la".data, History := NewShellHistory } "x".data rfl (by decide)⟩

/-! ## Claim C1 -/

/-- C1 (counterexample): in `stateNormal`, a chunk whose first byte is `'!'`
does NOT enter the prompting path: the claim predicts a transition to
`statePrompting` with the chunk intercepted, but the code (which only tests
`unicode.IsUpper` on the first byte) transitions to `stateShell` and forwards
the chunk to the child shell. -/
theorem c1_counterexample :
    (({ State := stateNormal, Prompt := [], Command := NewShellBuffer,
        LastAutosuggest := [], History := NewShellHistory } : ShellState).InputFromParent ['!']
        (fun _ => [])).1.State = stateShell ∧
    (({ State := stateNormal, Prompt := [], Command := NewShellBuffer,
        LastAutosuggest := [], History := NewShellHistory } : ShellState).InputFromParent ['!']
        (fun _ => [])).2 = [Ev.childWrite ['!']] ∧
    stateShell ≠ statePrompting :=
  ⟨by decide, by decide, by decide⟩

/-- C1 (amended): in `stateNormal`, a chunk whose first byte is an uppercase
letter transitions to `statePrompting`; the whole chunk is recorded as the
prompt and written to the terminal in the prompt style, and nothing is
forwarded to the child. A chunk whose first byte is `'!'` (containing no
carriage return) instead starts a shell command: the state becomes
`stateShell` and the chunk is forwarded verbatim to the child. -/
theorem c1_amended :
    (∀ (st : ShellState) (d0 : Char) (rest : List Char) (llm : CompletionRequest → List Char),
      st.State = stateNormal → goIsUpper d0 = true →
      st.InputFromParent (d0 :: rest) llm =
        ({ st with State := statePrompting, Prompt := d0 :: rest },
         [Ev.parentWrite StyleTag.promptStyle (d0 :: rest)]))
    ∧ (∀ (st : ShellState) (rest : List Char) (llm : CompletionRequest → List Char),
      st.State = stateNormal → ('!' :: rest).contains '\r' = false →
      st.InputFromParent ('!' :: rest) llm =
        ({ st with State := stateShell, History := st.History.NewBlock,
                   Command := NewShellBuffer.Write ('!' :: rest) },
         [Ev.childWrite ('!' :: rest)])) := by
  constructor
  · intro st d0 rest llm hstate hup
    unfold ShellState.InputFromParent
    simp [hstate, hup]
  · intro st rest llm hstate hcr
    have hmem : '\x0d' ∉ rest := by
      intro hm
      have hcon : ('!' :: rest).contains '\x0d' = true := by simp [hm]
      rw [hcon] at hcr
      exact absurd hcr (by simp)
    unfold ShellState.InputFromParent
    simp [hstate, hmem, (by decide : goIsUpper '!' = false), (by decide : ¬ ('!' = '\t'))]

/-- C1 (witness for the amended theorem): the chunk `"How"` in normal state,
and the chunk `"!ls"` in normal state. -/
theorem c1_amended_witness :
    (({ State := stateNormal, Prompt := [], Command := NewShellBuffer,
        LastAutosuggest := [], History := NewShellHistory } : ShellState).InputFromParent
        ('H' :: "ow".data) (fun _ => []) =
      ({ State := statePrompting, Prompt := 'H' :: "ow".data, Command := NewShellBuffer,
         LastAutosuggest := [], History := NewShellHistory },
       [Ev.parentWrite StyleTag.promptStyle ('H' :: "ow".data)]))
    ∧ (({ State := stateNormal, Prompt := [], Command := NewShellBuffer,
          LastAutosuggest := [], History := NewShellHistory } : ShellState).InputFromParent
          ('!' :: "ls".data) (fun _ => []) =
        ({ State := stateShell, Prompt := [], Command := NewShellBuffer.Write ('!' :: "ls".data),
           LastAutosuggest := [], History := NewShellHistory.NewBlock },
         [Ev.childWrite ('!' :: "ls".data)])) :=
  ⟨c1_amended.1
      { State := stateNormal, Prompt := [], Command := NewShellBuffer,
        LastAutosuggest := [], History := NewShellHistory } 'H' "ow".data (fun _ => [])
      rfl (by decide),
   c1_amended.2
      { State := stateNormal, Prompt := [], Command := NewShellBuffer,
        LastAutosuggest := [], History := NewShellHistory } "ls".data (fun _ => [])
      rfl (by decide)⟩

/-! ## Claim C8 -/

/-- C8 (counterexample): in `stateShell` with command buffer `"ls"` and
pending suggestion tail `" -la"`, pressing Tab writes the tail to the child
PTY but leaves the command buffer at `"ls"` — the claim's assertion that the
buffer afterwards equals the realized command `"ls -la"` is false. -/
theorem c8_counterexample :
    (({ State := stateShell, Prompt := [], Command := { buffer := "ls".data, cursor := 2 },
        LastAutosuggest := " -la".data, History := NewShellHistory } : ShellState).InputFromParent
        ['\t'] (fun _ => [])).2 = [Ev.childWrite (" -la".data)] ∧
    (({ State := stateShell, Prompt := [], Command := { buffer := "ls".data, cursor := 2 },
        LastAutosuggest := " -la".data, History := NewShellHistory } : ShellState).InputFromParent
        ['\t'] (fun _ => [])).1.Command.buffer = "ls".data ∧
    "ls".data ≠ "ls -la".data :=
  ⟨by decide, by decide, by decide⟩

/-- C8 (amended): in `stateShell`, Tab with a pending suggestion writes the
stored suggestion tail to the child PTY (and nothing to the parent terminal),
and leaves the entire multiplexer state — in particular the command buffer,
which is NOT updated to the realized command — unchanged. -/
theorem c8_amended (st : ShellState) (rest : List Char) (llm : CompletionRequest → List Char)
    (hstate : st.State = stateShell) (hcr : ('\t' :: rest).contains '\r' = false)
    (hsugg : st.LastAutosuggest ≠ []) :
    st.InputFromParent ('\t' :: rest) llm = (st, [Ev.childWrite st.LastAutosuggest]) := by
  have hmem : '\x0d' ∉ rest := by
    intro hm
    have hcon : ('\t' :: rest).contains '\x0d' = true := by simp [hm]
    rw [hcon] at hcr
    exact absurd hcr (by simp)
  unfold ShellState.InputFromParent
  simp [hstate, hmem, hsugg, stateNormal, stateShell, statePrompting]

/-- C8 (witness for the amended theorem). -/
theorem c8_amended_witness :
    ({ State := stateShell, Prompt := [], Command := { buffer := "ls".data, cursor := 2 },
       LastAutosuggest := " -la".data, History := NewShellHistory } : ShellState).InputFromParent
        ['\t'] (fun _ => []) =
      ({ State := stateShell, Prompt := [], Command := { buffer := "ls".data, cursor := 2 },
         LastAutosuggest := " -la".data, History := NewShellHistory },
       [Ev.childWrite (" -la".data)]) :=
  c8_amended
    { State := stateShell, Prompt := [], Command := { buffer := "ls".data, cursor := 2 },
      LastAutosuggest := " -la".data, History := NewShellHistory }
    [] (fun _ => []) rfl (by decide) (by decide)

/-! ## Claim C9 -/

/-- The full event trace of a prompt submission (`statePrompting`, chunk
containing a carriage return): question-styled echo, `"\n\r"` to the
terminal, the blocking streaming-completion call, the `"\n"` to the child,
and the autosuggest refresh — in that order (butterfish.go:752-793). -/
theorem inputFromParent_prompting_cr (st : ShellState) (data : List Char)
    (llm : CompletionRequest → List Char)
    (hstate : st.State = statePrompting) (hcr : data.contains '\r' = true) :
    (st.InputFromParent data llm).2 =
      [Ev.parentWrite StyleTag.question (data.takeWhile (fun c => c != '\r')),
       Ev.parentWrite StyleTag.plain ['\n', '\r'],
       Ev.llmStream
         { Prompt := st.Prompt ++ data.takeWhile (fun c => c != '\r'),
           Model := BestCompletionModel, MaxTokens := 512,
           HistoryBlocks := st.History.GetLastNBytes 3000 }
         (llm { Prompt := st.Prompt ++ data.takeWhile (fun c => c != '\r'),
                Model := BestCompletionModel, MaxTokens := 512,
                HistoryBlocks := st.History.GetLastNBytes 3000 }),
       Ev.childWrite ['\n'],
       Ev.autosuggestRequest true] := by
  have hmem : '\x0d' ∈ data := by simpa using hcr
  unfold ShellState.InputFromParent
  simp [hstate, hmem, stateNormal, statePrompting]

/-- C9: for every prompt submission, every `"\n"` written to the child in the
resulting trace occurs strictly after the streaming completion call has
returned (its output fully delivered): any index holding
`Ev.childWrite ['\n']` is preceded by an index holding `Ev.llmStream`. -/
theorem c9_newline_after_llm (st : ShellState) (data : List Char)
    (llm : CompletionRequest → List Char)
    (hstate : st.State = statePrompting) (hcr : data.contains '\r' = true) :
    ∀ j, ((st.InputFromParent data llm).2)[j]? = some (Ev.childWrite ['\n']) →
      ∃ i : Nat, i < j ∧ ∃ req out,
        ((st.InputFromParent data llm).2)[i]? = some (Ev.llmStream req out) := by
  intro j hj
  rw [inputFromParent_prompting_cr st data llm hstate hcr] at hj ⊢
  match j with
  | 0 => simp at hj
  | 1 => simp at hj
  | 2 => simp at hj
  | 3 =>
    exact ⟨2, by omega,
      { Prompt := st.Prompt ++ data.takeWhile (fun c => c != '\r'),
        Model := BestCompletionModel, MaxTokens := 512,
        HistoryBlocks := st.History.GetLastNBytes 3000 },
      llm { Prompt := st.Prompt ++ data.takeWhile (fun c => c != '\r'),
            Model := BestCompletionModel, MaxTokens := 512,
            HistoryBlocks := st.History.GetLastNBytes 3000 },
      by simp⟩
  | 4 => simp at hj
  | n + 5 => simp at hj

/-- C9 (witness): a concrete prompt submission; the newline to the child (at
index 3) is preceded by the completion call (at index 2). -/
theorem c9_witness :
    ∃ i : Nat, i < 3 ∧ ∃ req out,
      ((({ State := statePrompting, Prompt := "Hi".data, Command := NewShellBuffer,
           LastAutosuggest := [], History := NewShellHistory } : ShellState).InputFromParent
          ['\r'] (fun _ => "ok".data)).2)[i]? = some (Ev.llmStream req out) :=
  c9_newline_after_llm
    { State := statePrompting, Prompt := "Hi".data, Command := NewShellBuffer,
      LastAutosuggest := [], History := NewShellHistory }
    ['\r'] (fun _ => "ok".data) rfl (by decide) 3 (by decide)

/-! ## Claim C10 -/

/-- C10: if the context is already cancelled after the debounce sleep, or the
non-streaming completion call returns an error (including cancellation), the
autosuggest task sends nothing on the autosuggest channel and produces no
user-visible output — the multiplexer observes no result at all. -/
theorem c10_autosuggest_error_silent (ctxCanceled : Bool) (currCommand historyText : List Char)
    (completion : CompletionRequest → Except (List Char) (List Char)) :
    (ctxCanceled = true →
      RequestCancelableAutosuggest ctxCanceled currCommand historyText completion = none)
    ∧ (∀ e, completion (autosuggestRequestFor currCommand historyText) = Except.error e →
      RequestCancelableAutosuggest ctxCanceled currCommand historyText completion = none) := by
  constructor
  · intro hcancel
    unfold RequestCancelableAutosuggest
    rw [hcancel]
    rfl
  · intro e herr
    unfold RequestCancelableAutosuggest
    cases ctxCanceled
    · simp [herr]
    · rfl

/-- C10 (witness): a concrete always-erroring completion oracle. -/
theorem c10_witness :
    RequestCancelableAutosuggest false "ls".data [] (fun _ => Except.error "quota".data) = none :=
  (c10_autosuggest_error_silent false "ls".data [] (fun _ => Except.error "quota".data)).2
    "quota".data rfl
